import Mathlib

/-
  Verification of the assignment-distribution core of the lawnotation
  repository: the Sequencer queries, the annotator-reassignment workflow
  (updateAssignees) and the task replication / merge procedures, embedded
  shallowly as pure Lean functions over explicit database states.
-/

namespace LawSpec

/-- Assignment status: the persisted status column is either of the two
literals pending and done. -/
inductive AssignmentStatus where
  | pending
  | done
deriving DecidableEq, Repr

/-- One row of the assignments table, fields per ZAssignmentFields plus the
generated id. annotator_id is nullable (the slot may be unbound). -/
structure Assignment where
  id : Nat
  task_id : Nat
  document_id : Nat
  annotator_id : Option String
  annotator_number : Int
  seq_pos : Int
  status : AssignmentStatus
  difficulty_rating : Int
  origin : String
deriving DecidableEq, Repr

/- ===================== Sequencer (assignment.router.ts) ===================== -/

/-- The rows of the assignments table matching annotator_id = aid and
task_id = tid (the two eq filters shared by the Sequencer queries). -/
def assignmentsOfUserAndTask (db : List Assignment) (aid : String) (tid : Nat) : List Assignment :=
  db.filter (fun a => a.annotator_id == some aid && a.task_id == tid)

/-- The pending subset of the rows matching annotator and task. -/
def pendingOfUserAndTask (db : List Assignment) (aid : String) (tid : Nat) : List Assignment :=
  (assignmentsOfUserAndTask db aid tid).filter (fun a => a.status == AssignmentStatus.pending)

/-- The minimal element of a list of seq_pos values, none when the list is
empty; this is what ORDER BY seq_pos ASC LIMIT 1 returns. -/
def minSeq? : List Int → Option Int
  | [] => none
  | x :: xs =>
    match minSeq? xs with
    | none => some x
    | some m => some (min x m)

/-- countAssignmentsByUserAndTask: first query selects seq_pos of the pending
rows ordered by seq_pos ascending with limit 1 (i.e. the minimal pending
seq_pos, none when no pending row); second query counts all matching rows.
The result is (next, total) with next defaulting to count + 1. -/
def countAssignmentsByUserAndTask (db : List Assignment) (aid : String) (tid : Nat) : Int × Nat :=
  let total := (assignmentsOfUserAndTask db aid tid).length
  let nextRow := minSeq? ((pendingOfUserAndTask db aid tid).map (fun a => a.seq_pos))
  (nextRow.getD ((total : Int) + 1), total)

/-- The strict priority order used by findNextAssignmentByUser: order by
task_id descending, then seq_pos ascending. a strictly precedes b. -/
def nextOrderLt (a b : Assignment) : Bool :=
  b.task_id < a.task_id || (a.task_id == b.task_id && a.seq_pos < b.seq_pos)

/-- Selection of the first row of a result set under a strict order lt
(ORDER BY ... LIMIT 1): fold keeping the best row so far. -/
def pickFirst (lt : Assignment → Assignment → Bool) (l : List Assignment) : Option Assignment :=
  l.foldl (fun acc a =>
    match acc with
    | none => some a
    | some b => if lt a b then some a else acc) none

/-- The pending rows of one annotator across all tasks. -/
def pendingOfUser (db : List Assignment) (aid : String) : List Assignment :=
  db.filter (fun a => a.annotator_id == some aid && a.status == AssignmentStatus.pending)

/-- findNextAssignmentByUser: filter annotator_id = uid and status pending,
order by task_id descending then seq_pos ascending, limit 1, maybeSingle
(so an empty result set yields null, not an error). -/
def findNextAssignmentByUser (db : List Assignment) (aid : String) : Option Assignment :=
  pickFirst nextOrderLt (pendingOfUser db aid)

/-- Modelled from the spec: the stored procedure next_random_assignment is not
under src (only its caller in assignment.router.ts is). Per the spec it picks
one assignment among the pending assignments of the annotator in the task,
excluding completed ones, with an implementation-defined (random or
deterministic) tie-break; it returns no row when none are pending. The
tie-break is modelled by an arbitrary choice index pick taken modulo the
number of pending rows. -/
def next_random_assignment (pick : Nat) (db : List Assignment) (aid : String) (tid : Nat) : Option Assignment :=
  let pend := pendingOfUserAndTask db aid tid
  pend.get? (pick % pend.length)

/-- findNextAssignmentsByUserAndTask: call the stored procedure and .single()
the result; when the procedure returns no row the call fails and the router
throws, otherwise the single row is returned. -/
def findNextAssignmentsByUserAndTask (pick : Nat) (db : List Assignment) (aid : String) (tid : Nat) : Except String Assignment :=
  match next_random_assignment pick db aid tid with
  | none => Except.error "Error in findNextAssignmentsByUserAndTask"
  | some a => Except.ok a

/- ========== Reassignment workflow (task.router.ts updateAssignees) ========== -/

/-- One row of get_all_annotators_from_task: the user currently bound to an
annotator slot (a LEFT JOIN with users, so id and email are null for an
unbound slot) together with the durable slot number. -/
structure Annotator where
  id : Option String
  email : Option String
  annotator_number : Int
deriving DecidableEq, Repr

/-- The external collaborators consulted by the reassignment workflow: the
users table (id, email pairs), the invite-by-email endpoint (new user id, or
failure), the notification-mail provider, and the per-row success of the
assignment update statements. -/
structure Env where
  users : List (String × String)
  inviteResult : String → Except String String
  mailOk : String → Bool
  updateOk : Nat → Bool

/-- Persistence mutations and side effects recorded by the workflow, in
order of occurrence. -/
inductive Event where
  | invited (email : String)
  | metadataUpdated (user_id : String) (task_id : Nat)
  | mailSent (email : String)
  | assignmentUpdated (id : Nat) (annotator_id : Option String)
deriving DecidableEq, Repr

/-- assignUserToTask: look the email up in the users table; a new email is
invited (embedding the task in the invited user metadata), failure of the
invitation throws; an existing user gets its metadata updated and a
notification mail, failure of the mail throws. On success the resolved user
id is returned together with the recorded effects. -/
def assignUserToTask (env : Env) (email : String) (task_id : Nat) :
    Except String (String × List Event) :=
  match env.users.find? (fun u => u.2 == email) with
  | none =>
    match env.inviteResult email with
    | Except.error e => Except.error ("Error inviting: " ++ e)
    | Except.ok uid => Except.ok (uid, [Event.invited email])
  | some u =>
    if env.mailOk u.2 then
      Except.ok (u.1, [Event.metadataUpdated u.1 task_id, Event.mailSent u.2])
    else
      Except.error "There was an error sending an email to the invited user."

/-- JS loose inequality between the requested email (a string) and the
current email of a slot (a string or null): a string is never loosely equal
to null, so the comparison is true whenever the current email is null or a
different string. -/
def jsEmailNe (req : String) (cur : Option String) : Bool :=
  match cur with
  | none => true
  | some c => req != c

/-- findAssignmentsByTaskAndUser: eq filter on task_id always; the
annotator_id and annotator_number filters are applied only when the input
field is truthy (present and not the empty string, resp. not zero). -/
def findAssignmentsByTaskAndUser (db : List Assignment) (annotator_id : Option String)
    (annotator_number : Option Int) (task_id : Nat) : List Assignment :=
  db.filter (fun a =>
    a.task_id == task_id
    && (match annotator_id with
        | none => true
        | some s => if s != "" then a.annotator_id == some s else true)
    && (match annotator_number with
        | none => true
        | some n => if n != 0 then a.annotator_number == n else true))

/-- The mutable state threaded through the updateAssignees loop: the
assignments table, the in-memory annotators array (whose emails the loop
overwrites), the recorded effects and the two counters. -/
structure LoopState where
  db : List Assignment
  annotators : List Annotator
  events : List Event
  success : Nat
  failed : Nat
deriving DecidableEq, Repr

/-- The inner re-binding loop of one slot: each fetched assignment is updated
to the resolved user one at a time; a row whose update succeeds is rewritten
in the table and counted as a success, a failing row only increments the
failure counter (the try/catch swallows the error). -/
def applyUpdates (env : Env) (new_user : Option String) (assignments : List Assignment)
    (st : LoopState) : LoopState :=
  assignments.foldl (fun s a =>
    if env.updateOk a.id then
      { s with
        db := s.db.map (fun b => if b.id == a.id then { b with annotator_id := new_user } else b),
        events := s.events ++ [Event.assignmentUpdated a.id new_user],
        success := s.success + 1 }
    else { s with failed := s.failed + 1 }) st

/-- One iteration of the updateAssignees loop at slot index i: skipped when
the requested email loosely equals the current one; otherwise the slot
assignments are fetched (passing the slot number to the truthiness-filtered
query), a user is resolved only when the requested email is nonempty (an
empty string yields a null user without any lookup), a resolution failure
aborts the whole call (it is not caught), and otherwise every fetched
assignment is re-bound and the in-memory email is overwritten. -/
def updateAssigneesStep (env : Env) (task_id : Nat) (new_email : String) (i : Nat)
    (st : LoopState) : LoopState × Option String :=
  match st.annotators.get? i with
  | none => (st, some "TypeError: annotators index out of range")
  | some ann =>
    if jsEmailNe new_email ann.email then
      let assignments := findAssignmentsByTaskAndUser st.db none (some ann.annotator_number) task_id
      match (if new_email != "" then
               (assignUserToTask env new_email task_id).map (fun p => (some p.1, p.2))
             else Except.ok (none, [])) with
      | Except.error e => (st, some e)
      | Except.ok (new_user, evs) =>
        let st1 := { st with events := st.events ++ evs }
        let st2 := applyUpdates env new_user assignments st1
        ({ st2 with annotators := st2.annotators.set i { ann with email := some new_email } }, none)
    else (st, none)

/-- The updateAssignees loop over the requested emails, indices counting up;
an abort (uncaught exception) stops the remaining iterations. -/
def updateAssigneesGo (env : Env) (task_id : Nat) :
    List String → Nat → LoopState → LoopState × Option String
  | [], _, st => (st, none)
  | e :: rest, i, st =>
    match updateAssigneesStep env task_id e i st with
    | (st2, some err) => (st2, some err)
    | (st2, none) => updateAssigneesGo env task_id rest (i + 1) st2

/-- The four-way outcome classification over the two counters, mirroring the
if chain of the source including its final Undefined case branch. -/
inductive ClassifiedResult where
  | allReassigned
  | noChanges
  | someFailed
  | allFailed
  | undefinedCase
deriving DecidableEq, Repr

/-- classify the outcome of the loop from the counters, by JS truthiness of
stats.success and stats.failed. -/
def classifyStats (success failed : Nat) : ClassifiedResult :=
  if success != 0 && failed == 0 then ClassifiedResult.allReassigned
  else if success == 0 && failed == 0 then ClassifiedResult.noChanges
  else if success != 0 && failed != 0 then ClassifiedResult.someFailed
  else if success == 0 && failed != 0 then ClassifiedResult.allFailed
  else ClassifiedResult.undefinedCase

/-- The message or error of each classified outcome. -/
def classifiedMessage : ClassifiedResult → Except String String
  | ClassifiedResult.allReassigned => Except.ok "All the assignments have been reassigned"
  | ClassifiedResult.noChanges => Except.ok "No changes have been made"
  | ClassifiedResult.someFailed => Except.error "Some assignment updates failed"
  | ClassifiedResult.allFailed => Except.error "All assignment updates failed"
  | ClassifiedResult.undefinedCase => Except.error "Undefined case"

deriving instance DecidableEq for Except

/-- The observable outcome of one updateAssignees call: the final persisted
state (committed even when the call reports an error) and the returned
message with the flat annotators, or the thrown error. -/
structure RunResult where
  state : LoopState
  result : Except String (String × List Annotator)
deriving DecidableEq, Repr

/-- updateAssignees: run the loop from a fresh stats record, then classify;
an abort inside the loop surfaces directly as the thrown error. -/
def updateAssignees (env : Env) (db : List Assignment) (annotators : List Annotator)
    (task_id : Nat) (new_emails : List String) : RunResult :=
  match updateAssigneesGo env task_id new_emails 0 ⟨db, annotators, [], 0, 0⟩ with
  | (st, some err) => ⟨st, Except.error err⟩
  | (st, none) =>
    ⟨st, match classifiedMessage (classifyStats st.success st.failed) with
         | Except.ok m => Except.ok (m, st.annotators)
         | Except.error e => Except.error e⟩

/- ========== Task replication and merge (task.router.ts) ========== -/

/-- One row of the tasks table (ZTaskFields plus the generated id). -/
structure Task where
  id : Nat
  name : String
  desc : String
  project_id : Nat
  labelset_id : Nat
  ann_guidelines : String
  ml_model_id : Option Nat
  annotation_level : String
deriving DecidableEq, Repr

/-- One row of the annotations table: the labeled span produced for an
assignment. -/
structure Annot where
  id : Nat
  assignment_id : Nat
  label : String
  start_index : Int
  end_index : Int
  text : String
  ls_id : String
  origin : String
  confidence_rating : Int
deriving DecidableEq, Repr

/-- One row of the annotation_relations table: a directed link between two
annotations. -/
structure Relation where
  id : Nat
  from_id : Nat
  to_id : Nat
  direction : String
  labels : String
  ls_from : String
  ls_to : String
deriving DecidableEq, Repr

/-- One row of the documents table. -/
structure Document where
  id : Nat
  name : String
deriving DecidableEq, Repr

/-- The persistent store seen by replication and merge, with the id
generators of the four inserted-into tables. -/
structure DB where
  tasks : List Task
  assignments : List Assignment
  annots : List Annot
  relations : List Relation
  documents : List Document
  nextTaskId : Nat
  nextAssignmentId : Nat
  nextAnnotId : Nat
  nextRelationId : Nat
deriving DecidableEq, Repr

/-- Batch insert with generated identifiers, modelling
.insert([...]).select(): the rows are inserted in order and receive
consecutive ids starting at next, and the inserted rows are returned in the
same order; mk builds each row from its generated id and its source row. -/
def insertWithIds {α β : Type} (next : Nat) (mk : Nat → α → β) : List α → List β
  | [] => []
  | x :: xs => mk next x :: insertWithIds (next + 1) mk xs

/-- findAssignmentsByTask: the assignments of the task in stored (id) order. -/
def findAssignmentsByTask (db : DB) (tid : Nat) : List Assignment :=
  db.assignments.filter (fun a => a.task_id == tid)

/-- Modelled from the spec: the annotation router is not under src (only its
caller replicateTask is). Per the spec the query returns the annotations of
the task: those whose owning assignment belongs to the task. -/
def findAnnotsByTask (db : DB) (tid : Nat) : List Annot :=
  db.annots.filter (fun an =>
    db.assignments.any (fun a => a.id == an.assignment_id && a.task_id == tid))

/-- Modelled from the spec: the relation router is not under src (only its
caller replicateTask is). Per the spec the query returns the relations of
the task: those whose from and to annotations belong to the task. -/
def findRelationsByTask (db : DB) (tid : Nat) : List Relation :=
  db.relations.filter (fun r =>
    (findAnnotsByTask db tid).any (fun an => an.id == r.from_id) &&
    (findAnnotsByTask db tid).any (fun an => an.id == r.to_id))

/-- Lookup in an old-id to new-id correspondence table (a JS dictionary with
numeric keys); a missing key gives undefined, rendered as the getD default at
the use sites. -/
def lookupAssoc (m : List (Nat × Nat)) (k : Nat) : Option Nat :=
  (m.find? (fun p => p.1 == k)).map (fun p => p.2)

/-- task.create inside replicateTask: the task fields are copied (the id is
stripped by the input schema) and a fresh id is generated. -/
def replicatedTask (db : DB) (task : Task) : Task := { task with id := db.nextTaskId }

/-- Stage 1 of the Entity Remapper: copy the assignments of the task under
the new task id, preserving annotator, slot number, document, position,
status, rating and origin. -/
def replicatedAssignments (db : DB) (task_id : Nat) : List Assignment :=
  insertWithIds db.nextAssignmentId
    (fun i a =>
      { id := i,
        task_id := db.nextTaskId,
        document_id := a.document_id,
        annotator_id := a.annotator_id,
        annotator_number := a.annotator_number,
        seq_pos := a.seq_pos,
        status := a.status,
        difficulty_rating := a.difficulty_rating,
        origin := a.origin })
    (findAssignmentsByTask db task_id)

/-- The dicAssignments table: old assignment id of index k maps to the new
assignment id of the same index, fully built before stage 2 runs. -/
def dicAssignments (db : DB) (task_id : Nat) : List (Nat × Nat) :=
  ((findAssignmentsByTask db task_id).map (fun a => a.id)).zip
    ((replicatedAssignments db task_id).map (fun a => a.id))

/-- Stage 2 of the Entity Remapper: copy the annotations of the task,
re-pointing each assignment reference through dicAssignments. -/
def replicatedAnnots (db : DB) (task_id : Nat) : List Annot :=
  insertWithIds db.nextAnnotId
    (fun i a =>
      { id := i,
        assignment_id := (lookupAssoc (dicAssignments db task_id) a.assignment_id).getD 0,
        label := a.label,
        start_index := a.start_index,
        end_index := a.end_index,
        text := a.text,
        ls_id := a.ls_id,
        origin := a.origin,
        confidence_rating := a.confidence_rating })
    (findAnnotsByTask db task_id)

/-- The dicAnnotations table: old annotation id of index k maps to the new
annotation id of the same index, fully built before stage 3 runs. -/
def dicAnnots (db : DB) (task_id : Nat) : List (Nat × Nat) :=
  ((findAnnotsByTask db task_id).map (fun a => a.id)).zip
    ((replicatedAnnots db task_id).map (fun a => a.id))

/-- Stage 3 of the Entity Remapper: copy the relations of the task,
re-pointing from and to through dicAnnotations. -/
def replicatedRelations (db : DB) (task_id : Nat) : List Relation :=
  insertWithIds db.nextRelationId
    (fun i r =>
      { id := i,
        from_id := (lookupAssoc (dicAnnots db task_id) r.from_id).getD 0,
        to_id := (lookupAssoc (dicAnnots db task_id) r.to_id).getD 0,
        direction := r.direction,
        labels := r.labels,
        ls_from := r.ls_from,
        ls_to := r.ls_to })
    (findRelationsByTask db task_id)

/-- The result of one replicateTask call: the updated store, the new task
and the three inserted batches in insertion order. -/
structure ReplicateResult where
  db : DB
  new_task : Task
  new_assignments : List Assignment
  new_annots : List Annot
  new_relations : List Relation
deriving DecidableEq, Repr

/-- replicateTask: find the task (none when absent), create its copy, then
run the three strictly staged copy phases, each batch appended to its table. -/
def replicateTask (db : DB) (task_id : Nat) : Option ReplicateResult :=
  match db.tasks.find? (fun t => t.id == task_id) with
  | none => none
  | some task =>
    some
      { db :=
          { db with
            tasks := db.tasks ++ [replicatedTask db task],
            assignments := db.assignments ++ replicatedAssignments db task_id,
            annots := db.annots ++ replicatedAnnots db task_id,
            relations := db.relations ++ replicatedRelations db task_id,
            nextTaskId := db.nextTaskId + 1,
            nextAssignmentId := db.nextAssignmentId + (replicatedAssignments db task_id).length,
            nextAnnotId := db.nextAnnotId + (replicatedAnnots db task_id).length,
            nextRelationId := db.nextRelationId + (replicatedRelations db task_id).length },
        new_task := replicatedTask db task,
        new_assignments := replicatedAssignments db task_id,
        new_annots := replicatedAnnots db task_id,
        new_relations := replicatedRelations db task_id }

/-- Modelled from the spec: findRichAssignmentsByTask is not under src (only
its caller mergeTasks is); per the spec it returns the assignments of the
task joined with their document name. -/
def findRichAssignmentsByTask (db : DB) (tid : Nat) : List (Assignment × Option String) :=
  (findAssignmentsByTask db tid).map (fun a =>
    (a, (db.documents.find? (fun d => d.id == a.document_id)).map (fun d => d.name)))

/-- The name2Id dictionary of mergeTasks: a document-name to document-id
correspondence built from the original-task rich assignments, first
occurrence of a name winning. -/
def buildName2Id (rich : List (Assignment × Option String)) : List (Option String × Nat) :=
  rich.foldl (fun acc p =>
    if acc.any (fun q => q.1 == p.2) then acc else acc ++ [(p.2, p.1.document_id)]) []

/-- Lookup of a document name in the name2Id dictionary. -/
def lookupName2Id (m : List (Option String × Nat)) (k : Option String) : Option Nat :=
  (m.find? (fun q => q.1 == k)).map (fun q => q.2)

/-- The transformed similar-task assignments inserted into the merged task:
each document reference is re-pointed through name2Id (built from the
original task) and the task reference is the merged task; the other fields
are copied. -/
def mergedAssignments (db : DB) (mergedTaskId originalTaskId similarTaskId : Nat) : List Assignment :=
  insertWithIds db.nextAssignmentId
    (fun i p =>
      { id := i,
        task_id := mergedTaskId,
        document_id := (lookupName2Id (buildName2Id (findRichAssignmentsByTask db originalTaskId)) p.2).getD 0,
        annotator_id := p.1.annotator_id,
        annotator_number := p.1.annotator_number,
        seq_pos := p.1.seq_pos,
        status := p.1.status,
        difficulty_rating := p.1.difficulty_rating,
        origin := p.1.origin })
    (findRichAssignmentsByTask db similarTaskId)

/-- mergeTasks: replicate the original task into a scratch merged task, then
fetch the rich assignments of both source tasks, re-point the similar ones
through the document-name correspondence of the original, and insert them
into the merged task (annotations and relations of the merged-in half are
deferred, per the documented limitation). -/
def mergeTasks (db : DB) (originalTaskId similarTaskId : Nat) : Option (DB × Task) :=
  match replicateTask db originalTaskId with
  | none => none
  | some r =>
    some
      ({ r.db with
         assignments := r.db.assignments ++
           mergedAssignments r.db r.new_task.id originalTaskId similarTaskId,
         nextAssignmentId := r.db.nextAssignmentId +
           (mergedAssignments r.db r.new_task.id originalTaskId similarTaskId).length },
       r.new_task)

/- ===================== Concrete example database states ===================== -/

/-- A task-1 database for annotator a: statuses exactly three pending and two
done, with the earliest pending assignment at seq_pos 5. -/
def dbC2 : List Assignment :=
  [⟨1, 1, 10, some "a", 1, 1, AssignmentStatus.done, 0, "manual"⟩,
   ⟨2, 1, 11, some "a", 1, 2, AssignmentStatus.done, 0, "manual"⟩,
   ⟨3, 1, 12, some "a", 1, 5, AssignmentStatus.pending, 0, "manual"⟩,
   ⟨4, 1, 13, some "a", 1, 6, AssignmentStatus.pending, 0, "manual"⟩,
   ⟨5, 1, 14, some "a", 1, 7, AssignmentStatus.pending, 0, "manual"⟩]

/-- A database with pending assignments of annotator a in two tasks, all
(task_id, seq_pos) keys distinct. -/
def dbC8 : List Assignment :=
  [⟨1, 1, 10, some "a", 1, 1, AssignmentStatus.pending, 0, "manual"⟩,
   ⟨2, 2, 11, some "a", 1, 2, AssignmentStatus.pending, 0, "manual"⟩,
   ⟨3, 2, 12, some "a", 1, 1, AssignmentStatus.done, 0, "manual"⟩,
   ⟨4, 2, 13, some "a", 1, 3, AssignmentStatus.pending, 0, "manual"⟩]

/-- A task-1 database with one assignment bound to user u1 on slot 1. -/
def dbC1 : List Assignment :=
  [⟨1, 1, 10, some "u1", 1, 1, AssignmentStatus.pending, 0, "manual"⟩]

/-- The annotators of task 1 in dbC1: one slot, currently bound to u1. -/
def annsC1 : List Annotator := [⟨some "u1", some "a@b.c", 1⟩]

/-- An environment where every update succeeds and invitations fail. -/
def envC1 : Env :=
  ⟨[("u1", "a@b.c")], fun _ => Except.error "smtp down", fun _ => true, fun _ => true⟩

/-- A task-1 database with one assignment on slot 0 and one on slot 2. -/
def dbC9 : List Assignment :=
  [⟨1, 1, 10, none, 0, 1, AssignmentStatus.pending, 0, "manual"⟩,
   ⟨2, 1, 11, some "u2", 2, 1, AssignmentStatus.pending, 0, "manual"⟩]

/-- The annotators of task 1 in dbC9: the unbound slot 0 and slot 2. -/
def annsC9 : List Annotator := [⟨none, none, 0⟩, ⟨some "u2", some "b@x.y", 2⟩]

/-- An environment knowing the existing users n@x.y and b@x.y; mails and
updates always succeed. -/
def envC9 : Env :=
  ⟨[("idn", "n@x.y"), ("u2", "b@x.y")], fun _ => Except.error "unused",
   fun _ => true, fun _ => true⟩

/-- A task-1 database with one assignment on slot 1 and one on slot 2, bound
to users u1 and u2. -/
def dbC6 : List Assignment :=
  [⟨1, 1, 10, some "u1", 1, 1, AssignmentStatus.pending, 0, "manual"⟩,
   ⟨2, 1, 11, some "u2", 2, 1, AssignmentStatus.pending, 0, "manual"⟩]

/-- The annotators of task 1 in dbC6. -/
def annsC6 : List Annotator := [⟨some "u1", some "a@x.y", 1⟩, ⟨some "u2", some "b@x.y", 2⟩]

/-- An environment where the requested email c@x.y is unknown and its
invitation fails, while d@x.y resolves to the existing user ud. -/
def envC6 : Env :=
  ⟨[("u1", "a@x.y"), ("u2", "b@x.y"), ("ud", "d@x.y")],
   fun _ => Except.error "invite rejected", fun _ => true, fun _ => true⟩

/-- An environment like envC6 where the update of assignment row 1 succeeds
and the update of row 2 fails. -/
def envC4 : Env :=
  ⟨[("u1", "a@x.y"), ("u2", "b@x.y"), ("ud", "d@x.y"), ("ue", "e@x.y")],
   fun _ => Except.error "invite rejected", fun _ => true, fun id => id == 1⟩

/-- The final loop state of the mixed run of envC4 over dbC6 requesting
d@x.y and e@x.y: one update committed, one failed. -/
def stC4 : LoopState :=
  ⟨[⟨1, 1, 10, some "ud", 1, 1, AssignmentStatus.pending, 0, "manual"⟩,
    ⟨2, 1, 11, some "u2", 2, 1, AssignmentStatus.pending, 0, "manual"⟩],
   [⟨some "u1", some "d@x.y", 1⟩, ⟨some "u2", some "e@x.y", 2⟩],
   [Event.metadataUpdated "ud" 1, Event.mailSent "d@x.y",
    Event.assignmentUpdated 1 (some "ud"), Event.metadataUpdated "ue" 1,
    Event.mailSent "e@x.y"],
   1, 1⟩

/-- The loop state at the abort of the run of envC6 over dbC6 requesting
d@x.y then c@x.y: slot 1 re-bound and committed, slot 2 aborted during user
resolution. -/
def stC6mid : LoopState :=
  ⟨[⟨1, 1, 10, some "ud", 1, 1, AssignmentStatus.pending, 0, "manual"⟩,
    ⟨2, 1, 11, some "u2", 2, 1, AssignmentStatus.pending, 0, "manual"⟩],
   [⟨some "u1", some "d@x.y", 1⟩, ⟨some "u2", some "b@x.y", 2⟩],
   [Event.metadataUpdated "ud" 1, Event.mailSent "d@x.y",
    Event.assignmentUpdated 1 (some "ud")],
   1, 0⟩

/-- A store with one task, two assignments, two annotations and one
relation between them. -/
def dbC3 : DB :=
  ⟨[⟨1, "t", "d", 1, 1, "g", none, "word"⟩],
   [⟨1, 1, 10, some "u1", 1, 1, AssignmentStatus.done, 2, "manual"⟩,
    ⟨2, 1, 11, some "u2", 2, 1, AssignmentStatus.pending, 3, "imported"⟩],
   [⟨1, 1, "L1", 0, 4, "txt", "ls1", "manual", 1⟩,
    ⟨2, 2, "L2", 5, 9, "txt2", "ls2", "manual", 2⟩],
   [⟨1, 1, 2, "right", "rel", "ls1", "ls2"⟩],
   [⟨10, "X"⟩, ⟨11, "Y"⟩],
   2, 3, 3, 2⟩

/-- The result of replicating task 1 of dbC3. -/
def rC3 : ReplicateResult := (replicateTask dbC3 1).get (by decide)

/-- A store with an original task 1 over documents 10 and 11 (named X and Y)
and a similar task 2 over distinct document rows 20 and 21 carrying the same
names, bound to a different annotator. -/
def dbC5 : DB :=
  ⟨[⟨1, "orig", "d", 1, 1, "g", none, "word"⟩,
    ⟨2, "similar", "d", 1, 1, "g", none, "word"⟩],
   [⟨1, 1, 10, some "u1", 1, 1, AssignmentStatus.pending, 0, "manual"⟩,
    ⟨2, 1, 11, some "u1", 1, 2, AssignmentStatus.pending, 0, "manual"⟩,
    ⟨3, 2, 20, some "u2", 1, 1, AssignmentStatus.pending, 0, "manual"⟩,
    ⟨4, 2, 21, some "u2", 1, 2, AssignmentStatus.pending, 0, "manual"⟩],
   [], [],
   [⟨10, "X"⟩, ⟨11, "Y"⟩, ⟨20, "X"⟩, ⟨21, "Y"⟩],
   3, 5, 1, 1⟩

/-- The result of merging similar task 2 into original task 1 of dbC5. -/
def mergeC5 : DB × Task := (mergeTasks dbC5 1 2).get (by decide)

/- ============================ Helper lemmas ============================ -/

theorem minSeq?_eq_none {l : List Int} : minSeq? l = none ↔ l = [] := by
  cases l with
  | nil => simp [minSeq?]
  | cons x xs =>
    simp only [minSeq?]
    cases h : minSeq? xs <;> simp

theorem minSeq?_spec {l : List Int} {m : Int} (h : minSeq? l = some m) :
    m ∈ l ∧ ∀ y ∈ l, m ≤ y := by
  induction l generalizing m with
  | nil => simp [minSeq?] at h
  | cons x xs ih =>
    simp only [minSeq?] at h
    cases hxs : minSeq? xs with
    | none =>
      rw [hxs] at h
      simp only [Option.some.injEq] at h
      subst h
      have hnil : xs = [] := minSeq?_eq_none.mp hxs
      subst hnil
      simp
    | some m2 =>
      rw [hxs] at h
      simp only [Option.some.injEq] at h
      obtain ⟨hm2, hle⟩ := ih hxs
      subst h
      constructor
      · rcases le_or_lt x m2 with h1 | h1
        · rw [min_eq_left h1]; exact List.mem_cons_self x xs
        · rw [min_eq_right (le_of_lt h1)]; exact List.mem_cons_of_mem x hm2
      · intro y hy
        rcases List.mem_cons.mp hy with hy | hy
        · rw [hy]; exact min_le_left x m2
        · exact le_trans (min_le_right x m2) (hle y hy)

theorem nextOrderLt_iff {a b : Assignment} :
    nextOrderLt a b = true ↔
      b.task_id < a.task_id ∨ (a.task_id = b.task_id ∧ a.seq_pos < b.seq_pos) := by
  simp [nextOrderLt]

theorem nextOrderLt_irrefl (a : Assignment) : nextOrderLt a a = false := by
  rw [Bool.eq_false_iff]
  intro h
  rw [nextOrderLt_iff] at h
  omega

theorem nextOrderLt_cross {a b x : Assignment}
    (h1 : nextOrderLt a x = true) (h2 : nextOrderLt b x = false) :
    nextOrderLt a b = true := by
  rw [nextOrderLt_iff] at h1 ⊢
  rw [Bool.eq_false_iff, ne_eq, nextOrderLt_iff] at h2
  push_neg at h2
  omega

theorem nextOrderLt_asymm {a b : Assignment} (h1 : nextOrderLt a b = true) :
    nextOrderLt b a = false := by
  rw [Bool.eq_false_iff]
  intro h2
  rw [nextOrderLt_iff] at h1 h2
  omega

theorem nextOrderLt_total {a b : Assignment}
    (h : a.task_id ≠ b.task_id ∨ a.seq_pos ≠ b.seq_pos) :
    nextOrderLt a b = true ∨ nextOrderLt b a = true := by
  rw [nextOrderLt_iff, nextOrderLt_iff]
  omega

theorem pickFirst_go_none {lt : Assignment → Assignment → Bool} (l : List Assignment) :
    ∀ acc : Option Assignment,
      (l.foldl (fun acc a =>
        match acc with
        | none => some a
        | some b => if lt a b then some a else acc) acc = none ↔ (acc = none ∧ l = [])) := by
  induction l with
  | nil => intro acc; simp
  | cons a l ih =>
    intro acc
    cases acc with
    | none =>
      simp only [List.foldl_cons]
      rw [ih]
      simp
    | some b =>
      simp only [List.foldl_cons]
      constructor
      · intro h
        rcases ((ih _).mp h) with ⟨h1, h2⟩
        split at h1 <;> simp at h1
      · intro h
        exact absurd h.1 (by simp)

theorem pickFirst_go_spec {l : List Assignment} :
    ∀ {acc : Option Assignment} {x : Assignment},
      (l.foldl (fun acc a =>
        match acc with
        | none => some a
        | some b => if nextOrderLt a b then some a else acc) acc = some x) →
      ((acc = some x ∨ x ∈ l) ∧
       (∀ y ∈ l, nextOrderLt y x = false) ∧
       (∀ b, acc = some b → nextOrderLt b x = false)) := by
  induction l with
  | nil =>
    intro acc x h
    simp only [List.foldl_nil] at h
    subst h
    refine ⟨Or.inl rfl, by simp, ?_⟩
    intro b hb
    cases hb
    exact nextOrderLt_irrefl x
  | cons a l ih =>
    intro acc x h
    cases acc with
    | none =>
      simp only [List.foldl_cons] at h
      obtain ⟨hmem, hmin, hacc⟩ := ih h
      refine ⟨?_, ?_, ?_⟩
      · rcases hmem with hx | hx
        · exact Or.inr (by simp [Option.some.injEq] at hx; simp [hx])
        · exact Or.inr (List.mem_cons_of_mem a hx)
      · intro y hy
        rcases List.mem_cons.mp hy with hy | hy
        · subst hy; exact hacc y rfl
        · exact hmin y hy
      · intro b hb; cases hb
    | some c =>
      simp only [List.foldl_cons] at h
      by_cases hlt : nextOrderLt a c = true
      · rw [if_pos hlt] at h
        obtain ⟨hmem, hmin, hacc⟩ := ih h
        have hax : nextOrderLt a x = false := hacc a rfl
        refine ⟨?_, ?_, ?_⟩
        · rcases hmem with hx | hx
          · exact Or.inr (by simp [Option.some.injEq] at hx; simp [hx])
          · exact Or.inr (List.mem_cons_of_mem a hx)
        · intro y hy
          rcases List.mem_cons.mp hy with hy | hy
          · subst hy; exact hax
          · exact hmin y hy
        · intro b hb
          injection hb with hb
          subst hb
          rw [Bool.eq_false_iff]
          intro hbx
          have hca := nextOrderLt_cross hbx hax
          have hac := nextOrderLt_asymm hlt
          rw [hca] at hac
          simp at hac
      · rw [if_neg hlt] at h
        obtain ⟨hmem, hmin, hacc⟩ := ih h
        have hcx : nextOrderLt c x = false := hacc c rfl
        refine ⟨?_, ?_, ?_⟩
        · rcases hmem with hx | hx
          · exact Or.inl hx
          · exact Or.inr (List.mem_cons_of_mem a hx)
        · intro y hy
          rcases List.mem_cons.mp hy with hy | hy
          · subst hy
            rw [Bool.eq_false_iff]
            intro hax
            exact hlt (nextOrderLt_cross hax hcx)
          · exact hmin y hy
        · intro b hb
          injection hb with hb
          subst hb
          exact hcx

theorem mem_pendingOfUserAndTask {db : List Assignment} {a : Assignment} {aid : String} {tid : Nat}
    (h : a ∈ pendingOfUserAndTask db aid tid) :
    a.status = AssignmentStatus.pending ∧ a.annotator_id = some aid ∧ a.task_id = tid := by
  unfold pendingOfUserAndTask assignmentsOfUserAndTask at h
  rw [List.mem_filter] at h
  obtain ⟨h1, h2⟩ := h
  rw [List.mem_filter] at h1
  obtain ⟨_, h3⟩ := h1
  simp only [beq_iff_eq, Bool.and_eq_true] at h2 h3
  exact ⟨h2, h3.1, h3.2⟩

theorem mem_pendingOfUser {db : List Assignment} {a : Assignment} {aid : String}
    (h : a ∈ pendingOfUser db aid) :
    a.annotator_id = some aid ∧ a.status = AssignmentStatus.pending := by
  unfold pendingOfUser at h
  rw [List.mem_filter] at h
  obtain ⟨_, h2⟩ := h
  simp only [beq_iff_eq, Bool.and_eq_true] at h2
  exact h2

/- ============================ Claim theorems ============================ -/

/-- C2: countAssignmentsByUserAndTask returns (next, total): total counts all
of the annotator assignments in the task (pending and done); when a pending
assignment exists, next is the seq_pos of the earliest pending one; when none
is pending, next = total + 1; and when there are no assignments at all the
result is (1, 0). -/
theorem countAssignmentsByUserAndTask_correct (db : List Assignment) (aid : String) (tid : Nat) :
    (countAssignmentsByUserAndTask db aid tid).2 = (assignmentsOfUserAndTask db aid tid).length ∧
    (pendingOfUserAndTask db aid tid ≠ [] →
      ∃ a ∈ pendingOfUserAndTask db aid tid,
        (countAssignmentsByUserAndTask db aid tid).1 = a.seq_pos ∧
        ∀ b ∈ pendingOfUserAndTask db aid tid, a.seq_pos ≤ b.seq_pos) ∧
    (pendingOfUserAndTask db aid tid = [] →
      (countAssignmentsByUserAndTask db aid tid).1 =
        ((assignmentsOfUserAndTask db aid tid).length : Int) + 1) ∧
    (assignmentsOfUserAndTask db aid tid = [] →
      countAssignmentsByUserAndTask db aid tid = (1, 0)) := by
  refine ⟨rfl, ?_, ?_, ?_⟩
  · intro hne
    have hmapne : (pendingOfUserAndTask db aid tid).map (fun a => a.seq_pos) ≠ [] := by
      simpa using hne
    cases hmin : minSeq? ((pendingOfUserAndTask db aid tid).map (fun a => a.seq_pos)) with
    | none => exact absurd (minSeq?_eq_none.mp hmin) hmapne
    | some m =>
      obtain ⟨hm, hle⟩ := minSeq?_spec hmin
      obtain ⟨a, ha, hseq⟩ := List.mem_map.mp hm
      refine ⟨a, ha, ?_, ?_⟩
      · simp only [countAssignmentsByUserAndTask]
        rw [hmin, hseq]
        rfl
      · intro b hb
        rw [hseq]
        exact hle b.seq_pos (List.mem_map.mpr ⟨b, hb, rfl⟩)
  · intro hnil
    simp only [countAssignmentsByUserAndTask]
    rw [hnil]
    simp [minSeq?]
  · intro hnil
    simp only [countAssignmentsByUserAndTask, pendingOfUserAndTask]
    rw [hnil]
    simp [minSeq?]

/-- C2 witness: on the concrete database the earliest pending seq_pos is
returned, and on the empty database the result is (1, 0). -/
theorem countAssignmentsByUserAndTask_correct_witness :
    (∃ a ∈ pendingOfUserAndTask dbC2 "a" 1,
        (countAssignmentsByUserAndTask dbC2 "a" 1).1 = a.seq_pos ∧
        ∀ b ∈ pendingOfUserAndTask dbC2 "a" 1, a.seq_pos ≤ b.seq_pos) ∧
    countAssignmentsByUserAndTask [] "a" 1 = (1, 0) :=
  ⟨(countAssignmentsByUserAndTask_correct dbC2 "a" 1).2.1 (by decide),
   (countAssignmentsByUserAndTask_correct [] "a" 1).2.2.2 (by decide)⟩

/-- C7: findNextAssignmentsByUserAndTask fails when the annotator has no
pending assignment in the task, and otherwise returns a single assignment
selected from the pending set of that annotator and task. -/
theorem findNextAssignmentsByUserAndTask_correct (pick : Nat) (db : List Assignment) (aid : String) (tid : Nat) :
    (pendingOfUserAndTask db aid tid = [] →
      findNextAssignmentsByUserAndTask pick db aid tid =
        Except.error "Error in findNextAssignmentsByUserAndTask") ∧
    (pendingOfUserAndTask db aid tid ≠ [] →
      ∃ a, findNextAssignmentsByUserAndTask pick db aid tid = Except.ok a ∧
        a ∈ pendingOfUserAndTask db aid tid ∧
        a.status = AssignmentStatus.pending ∧
        a.annotator_id = some aid ∧ a.task_id = tid) := by
  constructor
  · intro h
    simp only [findNextAssignmentsByUserAndTask, next_random_assignment]
    rw [h]
    rfl
  · intro h
    have hlen : 0 < (pendingOfUserAndTask db aid tid).length := List.length_pos.mpr h
    have hmod : pick % (pendingOfUserAndTask db aid tid).length <
        (pendingOfUserAndTask db aid tid).length := Nat.mod_lt _ hlen
    have hget : (pendingOfUserAndTask db aid tid).get? (pick % (pendingOfUserAndTask db aid tid).length) =
        some ((pendingOfUserAndTask db aid tid).get ⟨_, hmod⟩) := List.get?_eq_get hmod
    have hmem := List.get_mem (pendingOfUserAndTask db aid tid) _ hmod
    obtain ⟨hst, haid, htid⟩ := mem_pendingOfUserAndTask hmem
    refine ⟨_, ?_, hmem, hst, haid, htid⟩
    simp only [findNextAssignmentsByUserAndTask, next_random_assignment]
    rw [hget]

/-- C7 witness: concrete failing and succeeding calls. -/
theorem findNextAssignmentsByUserAndTask_correct_witness :
    findNextAssignmentsByUserAndTask 0 [] "a" 1 =
      Except.error "Error in findNextAssignmentsByUserAndTask" ∧
    (∃ a, findNextAssignmentsByUserAndTask 2 dbC2 "a" 1 = Except.ok a ∧
        a ∈ pendingOfUserAndTask dbC2 "a" 1 ∧
        a.status = AssignmentStatus.pending ∧
        a.annotator_id = some "a" ∧ a.task_id = 1) :=
  ⟨(findNextAssignmentsByUserAndTask_correct 0 [] "a" 1).1 (by decide),
   (findNextAssignmentsByUserAndTask_correct 2 dbC2 "a" 1).2 (by decide)⟩

/-- C8: findNextAssignmentByUser returns null exactly when the annotator has
no pending assignment, and otherwise returns the pending assignment that is
first in the order task_id descending then seq_pos ascending; when the
(task_id, seq_pos) keys of the pending assignments are distinct, the returned
assignment strictly precedes every other pending one, so it is unique. -/
theorem findNextAssignmentByUser_correct (db : List Assignment) (aid : String)
    (hkeys : (pendingOfUser db aid).Pairwise
      (fun a b => a.task_id ≠ b.task_id ∨ a.seq_pos ≠ b.seq_pos)) :
    (findNextAssignmentByUser db aid = none ↔ pendingOfUser db aid = []) ∧
    (∀ a, findNextAssignmentByUser db aid = some a →
      a ∈ pendingOfUser db aid ∧
      a.annotator_id = some aid ∧ a.status = AssignmentStatus.pending ∧
      ∀ b ∈ pendingOfUser db aid, b ≠ a → nextOrderLt a b = true) := by
  constructor
  · simp only [findNextAssignmentByUser, pickFirst]
    rw [pickFirst_go_none]
    simp
  · intro a h
    simp only [findNextAssignmentByUser, pickFirst] at h
    obtain ⟨hmem, hmin, _⟩ := pickFirst_go_spec h
    have hmem2 : a ∈ pendingOfUser db aid := by
      rcases hmem with hx | hx
      · cases hx
      · exact hx
    obtain ⟨haid, hst⟩ := mem_pendingOfUser hmem2
    refine ⟨hmem2, haid, hst, ?_⟩
    intro b hb hba
    have hdk : b.task_id ≠ a.task_id ∨ b.seq_pos ≠ a.seq_pos := by
      have hsym : Symmetric (fun x y : Assignment => x.task_id ≠ y.task_id ∨ x.seq_pos ≠ y.seq_pos) := by
        intro x y hxy
        rcases hxy with h1 | h1
        · exact Or.inl (Ne.symm h1)
        · exact Or.inr (Ne.symm h1)
      exact List.Pairwise.forall hsym hkeys hb hmem2 hba
    rcases nextOrderLt_total hdk with h1 | h1
    · rw [hmin b hb] at h1
      cases h1
    · exact h1

theorem updateAssigneesStep_eq_email {env : Env} {task_id : Nat} {e : String} {i : Nat}
    {st : LoopState} {ann : Annotator}
    (hget : st.annotators.get? i = some ann) (hne : jsEmailNe e ann.email = false) :
    updateAssigneesStep env task_id e i st = (st, none) := by
  unfold updateAssigneesStep
  rw [hget]
  simp [hne]

theorem updateAssigneesGo_all_eq (env : Env) (task_id : Nat) :
    ∀ (emails : List String) (i : Nat) (st : LoopState),
      (∀ j e, emails.get? j = some e →
        ∃ ann, st.annotators.get? (i + j) = some ann ∧ jsEmailNe e ann.email = false) →
      updateAssigneesGo env task_id emails i st = (st, none) := by
  intro emails
  induction emails with
  | nil => intro i st _; rfl
  | cons e rest ih =>
    intro i st h
    obtain ⟨ann, hget, hne⟩ := h 0 e rfl
    rw [Nat.add_zero] at hget
    unfold updateAssigneesGo
    rw [updateAssigneesStep_eq_email hget hne]
    exact ih (i + 1) st (fun j e2 hj => by
      obtain ⟨ann2, hg2, hn2⟩ := h (j + 1) e2 (by simpa using hj)
      refine ⟨ann2, ?_, hn2⟩
      rw [show i + 1 + j = i + (j + 1) by omega]
      exact hg2)

theorem zip_index {α β : Type} : ∀ (l1 : List α) (l2 : List β) (j : Nat) (x : α),
    l1.get? j = some x → j < l2.length →
    ∃ y, l2.get? j = some y ∧ (x, y) ∈ l1.zip l2 := by
  intro l1
  induction l1 with
  | nil => intro l2 j x h _; simp at h
  | cons a l1 ih =>
    intro l2 j x h hj
    cases l2 with
    | nil => simp at hj
    | cons b l2 =>
      cases j with
      | zero =>
        simp only [List.get?] at h
        injection h with h
        exact ⟨b, rfl, by rw [h]; exact List.mem_cons_self _ _⟩
      | succ j =>
        simp only [List.get?] at h
        simp only [List.length_cons] at hj
        obtain ⟨y, hy, hmem⟩ := ih l2 j x h (by omega)
        exact ⟨y, hy, List.mem_cons_of_mem _ hmem⟩

theorem applyUpdates_events (env : Env) (nu : Option String) :
    ∀ (l : List Assignment) (st : LoopState),
      ∀ ev ∈ (applyUpdates env nu l st).events,
        ev ∈ st.events ∨ ∃ id, ev = Event.assignmentUpdated id nu := by
  intro l
  induction l with
  | nil => intro st ev h; exact Or.inl h
  | cons a rest ih =>
    intro st ev h
    rw [show applyUpdates env nu (a :: rest) st = applyUpdates env nu rest
        (if env.updateOk a.id = true then
          { st with
            db := st.db.map (fun b => if b.id == a.id then { b with annotator_id := nu } else b),
            events := st.events ++ [Event.assignmentUpdated a.id nu],
            success := st.success + 1 }
         else { st with failed := st.failed + 1 }) from rfl] at h
    by_cases hok : env.updateOk a.id = true
    · rw [if_pos hok] at h
      rcases ih _ ev h with h1 | h1
      · simp only [List.mem_append, List.mem_singleton] at h1
        rcases h1 with h2 | h2
        · exact Or.inl h2
        · exact Or.inr ⟨a.id, h2⟩
      · exact Or.inr h1
    · rw [if_neg hok] at h
      rcases ih _ ev h with h1 | h1
      · exact Or.inl h1
      · exact Or.inr h1

/-- C8 witness: on the concrete database the hypothesis of distinct keys
holds, and the selection facts follow. -/
theorem findNextAssignmentByUser_correct_witness :
    (findNextAssignmentByUser dbC8 "a" = none ↔ pendingOfUser dbC8 "a" = []) ∧
    (∀ a, findNextAssignmentByUser dbC8 "a" = some a →
      a ∈ pendingOfUser dbC8 "a" ∧
      a.annotator_id = some "a" ∧ a.status = AssignmentStatus.pending ∧
      ∀ b ∈ pendingOfUser dbC8 "a", b ≠ a → nextOrderLt a b = true) :=
  findNextAssignmentByUser_correct dbC8 "a" (by decide)

/-- C1 counterexample: requesting the empty string for the only slot, whose
current email is the different string a@b.c, does not leave the slot alone:
its assignment gets annotator_id rebound to null, a persistence mutation is
recorded, and the call returns the all-reassigned message rather than the
no-changes one. -/
theorem updateAssignees_emptyString_counterexample :
    (updateAssignees envC1 dbC1 annsC1 1 [""]).state.db =
      [⟨1, 1, 10, none, 1, 1, AssignmentStatus.pending, 0, "manual"⟩] ∧
    (updateAssignees envC1 dbC1 annsC1 1 [""]).state.events =
      [Event.assignmentUpdated 1 none] ∧
    (updateAssignees envC1 dbC1 annsC1 1 [""]).result =
      Except.ok ("All the assignments have been reassigned",
        [⟨some "u1", some "", 1⟩]) := by
  refine ⟨?_, ?_, ?_⟩ <;> rfl

/-- C1 (amended): a slot whose requested email equals its current email is
left alone (the loop iteration changes nothing and records no effect); when
every requested email equals the current email the whole call performs no
persistence mutation and returns the "No changes have been made" message. An
empty-string request only suppresses user resolution: no user is resolved or
invited for such a slot, every effect of its iteration being an assignment
update to a null annotator — so when the empty string differs from the
current email the slot assignments are still mutated. -/
theorem updateAssignees_unchangedEmail (env : Env) (task_id : Nat) :
    (∀ e i st ann, st.annotators.get? i = some ann → jsEmailNe e ann.email = false →
      updateAssigneesStep env task_id e i st = (st, none)) ∧
    (∀ (db : List Assignment) (annotators : List Annotator) (new_emails : List String),
      new_emails.length ≤ annotators.length →
      (∀ p ∈ new_emails.zip annotators, jsEmailNe p.1 p.2.email = false) →
      updateAssignees env db annotators task_id new_emails =
        ⟨⟨db, annotators, [], 0, 0⟩, Except.ok ("No changes have been made", annotators)⟩) ∧
    (∀ i st ann, st.annotators.get? i = some ann →
      ∀ ev ∈ ((updateAssigneesStep env task_id "" i st).1).events,
        ev ∈ st.events ∨ ∃ id, ev = Event.assignmentUpdated id none) := by
  refine ⟨?_, ?_, ?_⟩
  · intro e i st ann hget hne
    exact updateAssigneesStep_eq_email hget hne
  · intro db annotators new_emails hlen hzip
    unfold updateAssignees
    rw [updateAssigneesGo_all_eq env task_id new_emails 0 ⟨db, annotators, [], 0, 0⟩ ?_]
    · rfl
    · intro j e hj
      have hjlen : j < new_emails.length := by
        by_contra hge
        rw [List.get?_eq_none.mpr (by omega)] at hj
        cases hj
      obtain ⟨ann, hg, hmem⟩ := zip_index new_emails annotators j e hj (by omega)
      rw [Nat.zero_add]
      exact ⟨ann, hg, hzip (e, ann) hmem⟩
  · intro i st ann hget ev hev
    by_cases hne : jsEmailNe "" ann.email = true
    · unfold updateAssigneesStep at hev
      rw [hget] at hev
      simp only [hne, if_true] at hev
      simp only [bne_self_eq_false] at hev
      rcases applyUpdates_events env none _ _ ev hev with h1 | h1
      · rw [List.append_nil] at h1
        exact Or.inl h1
      · exact Or.inr h1
    · rw [updateAssigneesStep_eq_email hget (Bool.eq_false_iff.mpr hne)] at hev
      exact Or.inl hev

/-- C1 witness: a matching email leaves the state untouched; an all-equal
request returns the no-changes message with no recorded mutation; and the
empty-string iteration on the concrete state produces only null-annotator
update events. -/
theorem updateAssignees_unchangedEmail_witness :
    updateAssigneesStep envC1 1 "a@b.c" 0 ⟨dbC1, annsC1, [], 0, 0⟩ =
      (⟨dbC1, annsC1, [], 0, 0⟩, none) ∧
    updateAssignees envC1 dbC1 annsC1 1 ["a@b.c"] =
      ⟨⟨dbC1, annsC1, [], 0, 0⟩, Except.ok ("No changes have been made", annsC1)⟩ ∧
    (∀ ev ∈ ((updateAssigneesStep envC1 1 "" 0 ⟨dbC1, annsC1, [], 0, 0⟩).1).events,
      ev ∈ ([] : List Event) ∨ ∃ id, ev = Event.assignmentUpdated id none) :=
  ⟨(updateAssignees_unchangedEmail envC1 1).1 "a@b.c" 0 ⟨dbC1, annsC1, [], 0, 0⟩
      ⟨some "u1", some "a@b.c", 1⟩ (by decide) (by decide),
   (updateAssignees_unchangedEmail envC1 1).2.1 dbC1 annsC1 ["a@b.c"]
      (by decide) (by decide),
   (updateAssignees_unchangedEmail envC1 1).2.2 0 ⟨dbC1, annsC1, [], 0, 0⟩
      ⟨some "u1", some "a@b.c", 1⟩ (by decide)⟩

/-- C4: when the re-binding loop runs to completion with final state st, the
counters classify the call into the four cases of the source: some successes
and no failure return the all-reassigned message, no attempt at all returns
the no-changes message, a mix raises the some-failed server error, and only
failures raise the all-failed server error; in every case the loop state,
including the committed successful updates, is the returned state. -/
theorem updateAssignees_classification (env : Env) (db : List Assignment)
    (annotators : List Annotator) (task_id : Nat) (new_emails : List String) (st : LoopState)
    (hdone : updateAssigneesGo env task_id new_emails 0 ⟨db, annotators, [], 0, 0⟩ = (st, none)) :
    (updateAssignees env db annotators task_id new_emails).state = st ∧
    (st.success ≠ 0 ∧ st.failed = 0 →
      (updateAssignees env db annotators task_id new_emails).result =
        Except.ok ("All the assignments have been reassigned", st.annotators)) ∧
    (st.success = 0 ∧ st.failed = 0 →
      (updateAssignees env db annotators task_id new_emails).result =
        Except.ok ("No changes have been made", st.annotators)) ∧
    (st.success ≠ 0 ∧ st.failed ≠ 0 →
      (updateAssignees env db annotators task_id new_emails).result =
        Except.error "Some assignment updates failed") ∧
    (st.success = 0 ∧ st.failed ≠ 0 →
      (updateAssignees env db annotators task_id new_emails).result =
        Except.error "All assignment updates failed") := by
  unfold updateAssignees
  rw [hdone]
  refine ⟨rfl, ?_, ?_, ?_, ?_⟩ <;>
    (intro h; obtain ⟨h1, h2⟩ := h; simp [classifyStats, classifiedMessage, h1, h2])

/-- C4 witness: a concrete completed run with one committed and one failed
update is classified as the some-failed server error while the committed
update is retained in the returned state. -/
theorem updateAssignees_classification_witness :
    (updateAssignees envC4 dbC6 annsC6 1 ["d@x.y", "e@x.y"]).state = stC4 ∧
    (updateAssignees envC4 dbC6 annsC6 1 ["d@x.y", "e@x.y"]).result =
      Except.error "Some assignment updates failed" :=
  ⟨(updateAssignees_classification envC4 dbC6 annsC6 1 ["d@x.y", "e@x.y"] stC4 (by decide)).1,
   (updateAssignees_classification envC4 dbC6 annsC6 1 ["d@x.y", "e@x.y"] stC4
      (by decide)).2.2.2.1 (by decide)⟩

/-- C6 counterexample: two slots both requested to change; the first slot
fails to resolve its user. Contrary to the claim, the slot is not skipped
with a recorded failure and processing does not continue: the whole call
aborts with the resolution error, the failure counter stays zero, no
assignment of either slot is touched and the second slot is never processed. -/
theorem updateAssignees_resolutionFailure_counterexample :
    updateAssignees envC6 dbC6 annsC6 1 ["c@x.y", "d@x.y"] =
      ⟨⟨dbC6, annsC6, [], 0, 0⟩, Except.error "Error inviting: invite rejected"⟩ ∧
    (updateAssignees envC6 dbC6 annsC6 1 ["c@x.y", "d@x.y"]).state.failed = 0 := by
  exact ⟨by rfl, by rfl⟩

/-- C6 (amended): a slot whose requested email is nonempty and differs from
the current one resolves the user before any of its assignments are re-bound;
but a resolution failure is not recorded as a per-slot failure and processing
does not continue: the iteration aborts with the state unchanged, the abort
stops the loop so later slots are unprocessed, and the call surfaces the
error while the state committed by earlier slots is retained. -/
theorem updateAssignees_resolutionFailure (env : Env) (task_id : Nat) :
    (∀ e i st ann msg, st.annotators.get? i = some ann →
      jsEmailNe e ann.email = true → (e != "") = true →
      assignUserToTask env e task_id = Except.error msg →
      updateAssigneesStep env task_id e i st = (st, some msg)) ∧
    (∀ e rest i st st2 msg,
      updateAssigneesStep env task_id e i st = (st2, some msg) →
      updateAssigneesGo env task_id (e :: rest) i st = (st2, some msg)) ∧
    (∀ (db : List Assignment) (annotators : List Annotator) (new_emails : List String)
        (st : LoopState) (msg : String),
      updateAssigneesGo env task_id new_emails 0 ⟨db, annotators, [], 0, 0⟩ = (st, some msg) →
      updateAssignees env db annotators task_id new_emails = ⟨st, Except.error msg⟩) := by
  refine ⟨?_, ?_, ?_⟩
  · intro e i st ann msg hget hne hnemp herr
    unfold updateAssigneesStep
    rw [hget]
    simp only [hne, if_true, hnemp, herr]
    rfl
  · intro e rest i st st2 msg hstep
    unfold updateAssigneesGo
    rw [hstep]
  · intro db annotators new_emails st msg hgo
    unfold updateAssignees
    rw [hgo]

/-- C6 witness: the concrete aborting iteration, the stopped loop, and a full
run in which the first slot committed its re-binding before the second slot
aborted the call. -/
theorem updateAssignees_resolutionFailure_witness :
    updateAssigneesStep envC6 1 "c@x.y" 0 ⟨dbC6, annsC6, [], 0, 0⟩ =
      (⟨dbC6, annsC6, [], 0, 0⟩, some "Error inviting: invite rejected") ∧
    updateAssigneesGo envC6 1 ["c@x.y", "d@x.y"] 0 ⟨dbC6, annsC6, [], 0, 0⟩ =
      (⟨dbC6, annsC6, [], 0, 0⟩, some "Error inviting: invite rejected") ∧
    updateAssignees envC6 dbC6 annsC6 1 ["d@x.y", "c@x.y"] =
      ⟨stC6mid, Except.error "Error inviting: invite rejected"⟩ := by
  have h1 := (updateAssignees_resolutionFailure envC6 1).1 "c@x.y" 0
    ⟨dbC6, annsC6, [], 0, 0⟩ ⟨some "u1", some "a@x.y", 1⟩ "Error inviting: invite rejected"
    (by decide) (by decide) (by decide) (by decide)
  refine ⟨h1, ?_, ?_⟩
  · exact (updateAssignees_resolutionFailure envC6 1).2.1 "c@x.y" ["d@x.y"] 0
      ⟨dbC6, annsC6, [], 0, 0⟩ ⟨dbC6, annsC6, [], 0, 0⟩ "Error inviting: invite rejected" h1
  · exact (updateAssignees_resolutionFailure envC6 1).2.2 dbC6 annsC6 ["d@x.y", "c@x.y"]
      stC6mid "Error inviting: invite rejected" (by decide)

/-- C9: passing annotator_number 0 to findAssignmentsByTaskAndUser does not
apply the slot filter (0 is falsy, so it behaves like an absent parameter):
the query returns every assignment of the task, the same as when the
parameter is omitted; consequently updateAssignees, which forwards the slot
number of a changed slot to this query, re-binds the assignments of all
slots when a slot numbered 0 is changed, as the concrete run shows. -/
theorem findAssignmentsByTaskAndUser_zeroSlot (db : List Assignment) (tid : Nat) :
    findAssignmentsByTaskAndUser db none (some 0) tid =
      db.filter (fun a => a.task_id == tid) ∧
    findAssignmentsByTaskAndUser db none (some 0) tid =
      findAssignmentsByTaskAndUser db none none tid ∧
    (updateAssignees envC9 dbC9 annsC9 1 ["n@x.y", "b@x.y"]).state.db =
      [⟨1, 1, 10, some "idn", 0, 1, AssignmentStatus.pending, 0, "manual"⟩,
       ⟨2, 1, 11, some "idn", 2, 1, AssignmentStatus.pending, 0, "manual"⟩] := by
  refine ⟨?_, ?_, by rfl⟩
  · unfold findAssignmentsByTaskAndUser
    simp
  · unfold findAssignmentsByTaskAndUser
    simp

/-- C10: the four-way classification over the two counters is exhaustive and
mutually exclusive — the conditions of the four branches cover every pair of
naturals and each value of classifyStats identifies exactly one of them — so
the final Undefined case branch is unreachable. -/
theorem classifyStats_exhaustive (s f : Nat) :
    classifyStats s f ≠ ClassifiedResult.undefinedCase ∧
    ((s ≠ 0 ∧ f = 0) ∨ (s = 0 ∧ f = 0) ∨ (s ≠ 0 ∧ f ≠ 0) ∨ (s = 0 ∧ f ≠ 0)) ∧
    (classifyStats s f = ClassifiedResult.allReassigned ↔ (s ≠ 0 ∧ f = 0)) ∧
    (classifyStats s f = ClassifiedResult.noChanges ↔ (s = 0 ∧ f = 0)) ∧
    (classifyStats s f = ClassifiedResult.someFailed ↔ (s ≠ 0 ∧ f ≠ 0)) ∧
    (classifyStats s f = ClassifiedResult.allFailed ↔ (s = 0 ∧ f ≠ 0)) := by
  unfold classifyStats
  by_cases hs : s = 0 <;> by_cases hf : f = 0 <;> simp [hs, hf]

theorem insertWithIds_length {α β : Type} (mk : Nat → α → β) :
    ∀ (l : List α) (next : Nat), (insertWithIds next mk l).length = l.length := by
  intro l
  induction l with
  | nil => intro next; rfl
  | cons x xs ih => intro next; simp [insertWithIds, ih]

theorem insertWithIds_get? {α β : Type} (mk : Nat → α → β) :
    ∀ (l : List α) (next k : Nat),
      (insertWithIds next mk l).get? k = (l.get? k).map (fun x => mk (next + k) x) := by
  intro l
  induction l with
  | nil => intro next k; rfl
  | cons x xs ih =>
    intro next k
    cases k with
    | zero => rfl
    | succ k =>
      show (insertWithIds (next + 1) mk xs).get? k =
        (xs.get? k).map (fun x => mk (next + (k + 1)) x)
      rw [ih (next + 1) k, show next + 1 + k = next + (k + 1) from by omega]

theorem insertWithIds_mem {α β : Type} (mk : Nat → α → β) :
    ∀ (l : List α) (next : Nat) (b : β), b ∈ insertWithIds next mk l →
      ∃ i x, x ∈ l ∧ b = mk i x := by
  intro l
  induction l with
  | nil => intro next b h; cases h
  | cons x xs ih =>
    intro next b h
    rcases List.mem_cons.mp h with h1 | h1
    · exact ⟨next, x, List.mem_cons_self _ _, h1⟩
    · obtain ⟨i, y, hy, hb⟩ := ih (next + 1) b h1
      exact ⟨i, y, List.mem_cons_of_mem _ hy, hb⟩

theorem lookupAssoc_zip :
    ∀ (ks vs : List Nat), ks.Nodup → ∀ (j k v : Nat),
      ks.get? j = some k → vs.get? j = some v →
      lookupAssoc (ks.zip vs) k = some v := by
  intro ks
  induction ks with
  | nil => intro vs _ j k v h _; simp at h
  | cons k0 ks ih =>
    intro vs hnd j k v hk hv
    cases vs with
    | nil => simp at hv
    | cons v0 vs =>
      cases j with
      | zero =>
        simp only [List.get?] at hk hv
        injection hk with hk
        injection hv with hv
        subst hk
        subst hv
        simp [lookupAssoc, List.zip_cons_cons, List.find?]
      | succ j =>
        simp only [List.get?] at hk hv
        have hkmem : k ∈ ks := List.get?_mem hk
        have hne : k0 ≠ k := by
          intro he
          rw [he] at hnd
          exact (List.nodup_cons.mp hnd).1 hkmem
        have hrec := ih vs (List.Nodup.of_cons hnd) j k v hk hv
        unfold lookupAssoc at hrec ⊢
        rw [List.zip_cons_cons, List.find?_cons_of_neg _ (by simp [hne])]
        exact hrec

/-- Index-aligned lookup in an old-id to new-id table built by zipping the
mapped ids of the source batch with those of the inserted batch. -/
theorem lookup_zip_map {α β : Type} (f : α → Nat) (g : β → Nat)
    (olds : List α) (news : List β) (hnd : (olds.map f).Nodup)
    (hlen : news.length = olds.length) :
    ∀ (j : Nat) (oldA : α), olds.get? j = some oldA →
      ∃ newA, news.get? j = some newA ∧
        lookupAssoc ((olds.map f).zip (news.map g)) (f oldA) = some (g newA) := by
  intro j oldA hj
  have hjlen : j < olds.length := by
    by_contra hge
    rw [List.get?_eq_none.mpr (by omega)] at hj
    cases hj
  have hjnews : j < news.length := by omega
  refine ⟨news.get ⟨j, hjnews⟩, List.get?_eq_get hjnews, ?_⟩
  apply lookupAssoc_zip (olds.map f) (news.map g) hnd j
  · rw [List.get?_map, hj]
    rfl
  · rw [List.get?_map, List.get?_eq_get hjnews]
    rfl

theorem mem_findAnnotsByTask {db : DB} {tid : Nat} {a : Annot}
    (h : a ∈ findAnnotsByTask db tid) :
    ∃ oldA ∈ findAssignmentsByTask db tid, a.assignment_id = oldA.id := by
  unfold findAnnotsByTask at h
  rw [List.mem_filter] at h
  obtain ⟨_, hany⟩ := h
  obtain ⟨asg, hasg, hp⟩ := List.any_eq_true.mp hany
  simp only [Bool.and_eq_true, beq_iff_eq] at hp
  refine ⟨asg, ?_, hp.1.symm⟩
  unfold findAssignmentsByTask
  rw [List.mem_filter]
  exact ⟨hasg, by simp [hp.2]⟩

theorem mem_findRelationsByTask {db : DB} {tid : Nat} {r : Relation}
    (h : r ∈ findRelationsByTask db tid) :
    (∃ c ∈ findAnnotsByTask db tid, c.id = r.from_id) ∧
    (∃ c ∈ findAnnotsByTask db tid, c.id = r.to_id) := by
  unfold findRelationsByTask at h
  rw [List.mem_filter] at h
  obtain ⟨_, hp⟩ := h
  rw [Bool.and_eq_true] at hp
  obtain ⟨h1, h2⟩ := hp
  obtain ⟨c1, hc1, he1⟩ := List.any_eq_true.mp h1
  obtain ⟨c2, hc2, he2⟩ := List.any_eq_true.mp h2
  rw [beq_iff_eq] at he1 he2
  exact ⟨⟨c1, hc1, he1⟩, ⟨c2, hc2, he2⟩⟩

theorem nodup_map_id_filter {α : Type} (f : α → Nat) (p : α → Bool) (l : List α)
    (h : (l.map f).Nodup) : ((l.filter p).map f).Nodup :=
  List.Nodup.sublist (List.Sublist.map f (List.filter_sublist l)) h

theorem filter_append_nil_right {α : Type} (p : α → Bool) (l1 l2 : List α)
    (h : ∀ x ∈ l2, p x = false) : (l1 ++ l2).filter p = l1.filter p := by
  have h2 : List.filter p l2 = [] :=
    List.filter_eq_nil.mpr (fun a ha => by rw [h a ha]; simp)
  rw [List.filter_append, h2, List.append_nil]

theorem replicatedAssignments_task (db : DB) (tid : Nat) :
    ∀ x ∈ replicatedAssignments db tid, x.task_id = db.nextTaskId := by
  intro x hx
  obtain ⟨i, y, _, hxe⟩ := insertWithIds_mem _ _ _ _ hx
  rw [hxe]

theorem buildName2Id_mono (rich : List (Assignment × Option String)) :
    ∀ (acc : List (Option String × Nat)) (q : Option String × Nat), q ∈ acc →
      q ∈ rich.foldl (fun acc p =>
        if acc.any (fun q => q.1 == p.2) then acc else acc ++ [(p.2, p.1.document_id)]) acc := by
  induction rich with
  | nil => intro acc q h; exact h
  | cons p rest ih =>
    intro acc q h
    rw [List.foldl_cons]
    by_cases hc : acc.any (fun q => q.1 == p.2) = true
    · rw [if_pos hc]
      exact ih acc q h
    · rw [if_neg hc]
      exact ih _ q (List.mem_append_left _ h)

theorem buildName2Id_sub (rich : List (Assignment × Option String)) :
    ∀ (acc : List (Option String × Nat)) (q : Option String × Nat),
      q ∈ rich.foldl (fun acc p =>
        if acc.any (fun q => q.1 == p.2) then acc else acc ++ [(p.2, p.1.document_id)]) acc →
      q ∈ acc ∨ ∃ p ∈ rich, q = (p.2, p.1.document_id) := by
  induction rich with
  | nil => intro acc q h; exact Or.inl h
  | cons p rest ih =>
    intro acc q h
    rw [List.foldl_cons] at h
    by_cases hc : acc.any (fun q => q.1 == p.2) = true
    · rw [if_pos hc] at h
      rcases ih acc q h with h1 | ⟨p2, hp2, he⟩
      · exact Or.inl h1
      · exact Or.inr ⟨p2, List.mem_cons_of_mem _ hp2, he⟩
    · rw [if_neg hc] at h
      rcases ih _ q h with h1 | ⟨p2, hp2, he⟩
      · rcases List.mem_append.mp h1 with h2 | h2
        · exact Or.inl h2
        · rw [List.mem_singleton] at h2
          exact Or.inr ⟨p, List.mem_cons_self _ _, h2⟩
      · exact Or.inr ⟨p2, List.mem_cons_of_mem _ hp2, he⟩

theorem buildName2Id_covers (rich : List (Assignment × Option String)) :
    ∀ (acc : List (Option String × Nat)) (key : Option String),
      (∃ p ∈ rich, p.2 = key) →
      ∃ q ∈ rich.foldl (fun acc p =>
        if acc.any (fun q => q.1 == p.2) then acc else acc ++ [(p.2, p.1.document_id)]) acc,
        q.1 = key := by
  induction rich with
  | nil => intro acc key h; simp at h
  | cons p rest ih =>
    intro acc key h
    rw [List.foldl_cons]
    rcases h with ⟨p1, hp1, hkey⟩
    rcases List.mem_cons.mp hp1 with he | hmem
    · by_cases hc : acc.any (fun q => q.1 == p.2) = true
      · rw [if_pos hc]
        obtain ⟨q, hq, hq2⟩ := List.any_eq_true.mp hc
        rw [beq_iff_eq] at hq2
        refine ⟨q, buildName2Id_mono rest acc q hq, ?_⟩
        rw [hq2, ← he, hkey]
      · rw [if_neg hc]
        refine ⟨(p.2, p.1.document_id),
          buildName2Id_mono rest _ _ (List.mem_append_right _ (List.mem_singleton_self _)), ?_⟩
        rw [← he, hkey]
    · by_cases hc : acc.any (fun q => q.1 == p.2) = true
      · rw [if_pos hc]
        exact ih acc key ⟨p1, hmem, hkey⟩
      · rw [if_neg hc]
        exact ih _ key ⟨p1, hmem, hkey⟩

theorem lookupName2Id_of_mem {m : List (Option String × Nat)} {key : Option String}
    (h : ∃ q ∈ m, q.1 = key) :
    ∃ entry, m.find? (fun q => q.1 == key) = some entry ∧ entry ∈ m ∧ entry.1 = key ∧
      lookupName2Id m key = some entry.2 := by
  obtain ⟨q, hq, hq1⟩ := h
  have hsome : (m.find? (fun q => q.1 == key)).isSome = true :=
    List.find?_isSome.mpr ⟨q, hq, by rw [beq_iff_eq]; exact hq1⟩
  obtain ⟨entry, hentry⟩ := Option.isSome_iff_exists.mp hsome
  refine ⟨entry, hentry, List.mem_of_find?_eq_some hentry, ?_, ?_⟩
  · have := List.find?_some hentry
    rwa [beq_iff_eq] at this
  · unfold lookupName2Id
    rw [hentry]
    rfl

theorem mem_rich_fst {db : DB} {tid : Nat} {p : Assignment × Option String}
    (h : p ∈ findRichAssignmentsByTask db tid) : p.1 ∈ findAssignmentsByTask db tid := by
  unfold findRichAssignmentsByTask at h
  obtain ⟨a, ha, he⟩ := List.mem_map.mp h
  rw [← he]
  exact ha

/-- C3: replicateTask appends, to the store and in dependency order, one
copy of the task, of each of its assignments, annotations and relations; the
batches have exactly the source sizes; each copied assignment preserves
annotator, slot number, document, position, status, rating and origin under
the new task id; each copied annotation preserves its fields with the
assignment reference remapped to the same-index copy of its old owning
assignment; each copied relation preserves its fields with from and to
remapped to the same-index copies of the referenced annotations. -/
theorem replicateTask_correct (db : DB) (tid : Nat) (r : ReplicateResult)
    (hrep : replicateTask db tid = some r)
    (hndA : (db.assignments.map (fun a => a.id)).Nodup)
    (hndN : (db.annots.map (fun a => a.id)).Nodup) :
    (r.db.tasks = db.tasks ++ [r.new_task] ∧
     r.db.assignments = db.assignments ++ r.new_assignments ∧
     r.db.annots = db.annots ++ r.new_annots ∧
     r.db.relations = db.relations ++ r.new_relations) ∧
    (r.new_assignments.length = (findAssignmentsByTask db tid).length ∧
     ∀ k a, (findAssignmentsByTask db tid).get? k = some a →
       ∃ b, r.new_assignments.get? k = some b ∧
         b.task_id = r.new_task.id ∧
         b.document_id = a.document_id ∧
         b.annotator_id = a.annotator_id ∧
         b.annotator_number = a.annotator_number ∧
         b.seq_pos = a.seq_pos ∧
         b.status = a.status ∧
         b.difficulty_rating = a.difficulty_rating ∧
         b.origin = a.origin) ∧
    (r.new_annots.length = (findAnnotsByTask db tid).length ∧
     ∀ k a, (findAnnotsByTask db tid).get? k = some a →
       ∃ b, r.new_annots.get? k = some b ∧
         b.label = a.label ∧ b.start_index = a.start_index ∧
         b.end_index = a.end_index ∧ b.text = a.text ∧ b.ls_id = a.ls_id ∧
         b.origin = a.origin ∧ b.confidence_rating = a.confidence_rating ∧
         ∃ j oldA newA, (findAssignmentsByTask db tid).get? j = some oldA ∧
           r.new_assignments.get? j = some newA ∧
           a.assignment_id = oldA.id ∧ b.assignment_id = newA.id) ∧
    (r.new_relations.length = (findRelationsByTask db tid).length ∧
     ∀ k rel, (findRelationsByTask db tid).get? k = some rel →
       ∃ b, r.new_relations.get? k = some b ∧
         b.direction = rel.direction ∧ b.labels = rel.labels ∧
         b.ls_from = rel.ls_from ∧ b.ls_to = rel.ls_to ∧
         (∃ j oldC newC, (findAnnotsByTask db tid).get? j = some oldC ∧
           r.new_annots.get? j = some newC ∧
           rel.from_id = oldC.id ∧ b.from_id = newC.id) ∧
         (∃ j oldC newC, (findAnnotsByTask db tid).get? j = some oldC ∧
           r.new_annots.get? j = some newC ∧
           rel.to_id = oldC.id ∧ b.to_id = newC.id)) := by
  unfold replicateTask at hrep
  cases hfind : db.tasks.find? (fun t => t.id == tid) with
  | none =>
    rw [hfind] at hrep
    cases hrep
  | some task =>
    rw [hfind] at hrep
    injection hrep with hrep
    subst hrep
    dsimp only
    have hndF : ((findAssignmentsByTask db tid).map (fun x => x.id)).Nodup :=
      nodup_map_id_filter _ _ _ hndA
    have hndG : ((findAnnotsByTask db tid).map (fun x => x.id)).Nodup :=
      nodup_map_id_filter _ _ _ hndN
    have hlenA : (replicatedAssignments db tid).length = (findAssignmentsByTask db tid).length := by
      unfold replicatedAssignments
      exact insertWithIds_length _ _ _
    have hlenN : (replicatedAnnots db tid).length = (findAnnotsByTask db tid).length := by
      unfold replicatedAnnots
      exact insertWithIds_length _ _ _
    refine ⟨⟨rfl, rfl, rfl, rfl⟩, ⟨hlenA, ?_⟩, ⟨hlenN, ?_⟩, ?_, ?_⟩
    · intro k a hk
      unfold replicatedAssignments
      rw [insertWithIds_get?, hk]
      exact ⟨_, rfl, rfl, rfl, rfl, rfl, rfl, rfl, rfl, rfl⟩
    · intro k a hk
      have hmem : a ∈ findAnnotsByTask db tid := List.get?_mem hk
      obtain ⟨oldA, holdmem, haid⟩ := mem_findAnnotsByTask hmem
      obtain ⟨j, hj⟩ := List.mem_iff_get?.mp holdmem
      obtain ⟨newA, hnewA, hlook⟩ :=
        lookup_zip_map (fun x => x.id) (fun x => x.id) _ _ hndF hlenA j oldA hj
      unfold replicatedAnnots
      rw [insertWithIds_get?, hk]
      refine ⟨_, rfl, rfl, rfl, rfl, rfl, rfl, rfl, rfl, j, oldA, newA, hj, hnewA, haid, ?_⟩
      show (lookupAssoc (dicAssignments db tid) a.assignment_id).getD 0 = newA.id
      rw [haid]
      unfold dicAssignments
      rw [hlook]
      rfl
    · unfold replicatedRelations
      exact insertWithIds_length _ _ _
    · intro k rel hk
      have hmem := List.get?_mem hk
      obtain ⟨⟨c1, hc1m, hc1e⟩, ⟨c2, hc2m, hc2e⟩⟩ := mem_findRelationsByTask hmem
      obtain ⟨j1, hj1⟩ := List.mem_iff_get?.mp hc1m
      obtain ⟨j2, hj2⟩ := List.mem_iff_get?.mp hc2m
      obtain ⟨n1, hn1, hlook1⟩ :=
        lookup_zip_map (fun x => x.id) (fun x => x.id) _ _ hndG hlenN j1 c1 hj1
      obtain ⟨n2, hn2, hlook2⟩ :=
        lookup_zip_map (fun x => x.id) (fun x => x.id) _ _ hndG hlenN j2 c2 hj2
      unfold replicatedRelations
      rw [insertWithIds_get?, hk]
      refine ⟨_, rfl, rfl, rfl, rfl, rfl,
        ⟨j1, c1, n1, hj1, hn1, hc1e.symm, ?_⟩, ⟨j2, c2, n2, hj2, hn2, hc2e.symm, ?_⟩⟩
      · show (lookupAssoc (dicAnnots db tid) rel.from_id).getD 0 = n1.id
        rw [← hc1e]
        unfold dicAnnots
        rw [hlook1]
        rfl
      · show (lookupAssoc (dicAnnots db tid) rel.to_id).getD 0 = n2.id
        rw [← hc2e]
        unfold dicAnnots
        rw [hlook2]
        rfl

/-- C3 witness: replication of task 1 of the concrete store dbC3. -/
theorem replicateTask_correct_witness :
    (rC3.db.tasks = dbC3.tasks ++ [rC3.new_task] ∧
     rC3.db.assignments = dbC3.assignments ++ rC3.new_assignments ∧
     rC3.db.annots = dbC3.annots ++ rC3.new_annots ∧
     rC3.db.relations = dbC3.relations ++ rC3.new_relations) ∧
    (rC3.new_assignments.length = (findAssignmentsByTask dbC3 1).length ∧
     ∀ k a, (findAssignmentsByTask dbC3 1).get? k = some a →
       ∃ b, rC3.new_assignments.get? k = some b ∧
         b.task_id = rC3.new_task.id ∧
         b.document_id = a.document_id ∧
         b.annotator_id = a.annotator_id ∧
         b.annotator_number = a.annotator_number ∧
         b.seq_pos = a.seq_pos ∧
         b.status = a.status ∧
         b.difficulty_rating = a.difficulty_rating ∧
         b.origin = a.origin) ∧
    (rC3.new_annots.length = (findAnnotsByTask dbC3 1).length ∧
     ∀ k a, (findAnnotsByTask dbC3 1).get? k = some a →
       ∃ b, rC3.new_annots.get? k = some b ∧
         b.label = a.label ∧ b.start_index = a.start_index ∧
         b.end_index = a.end_index ∧ b.text = a.text ∧ b.ls_id = a.ls_id ∧
         b.origin = a.origin ∧ b.confidence_rating = a.confidence_rating ∧
         ∃ j oldA newA, (findAssignmentsByTask dbC3 1).get? j = some oldA ∧
           rC3.new_assignments.get? j = some newA ∧
           a.assignment_id = oldA.id ∧ b.assignment_id = newA.id) ∧
    (rC3.new_relations.length = (findRelationsByTask dbC3 1).length ∧
     ∀ k rel, (findRelationsByTask dbC3 1).get? k = some rel →
       ∃ b, rC3.new_relations.get? k = some b ∧
         b.direction = rel.direction ∧ b.labels = rel.labels ∧
         b.ls_from = rel.ls_from ∧ b.ls_to = rel.ls_to ∧
         (∃ j oldC newC, (findAnnotsByTask dbC3 1).get? j = some oldC ∧
           rC3.new_annots.get? j = some newC ∧
           rel.from_id = oldC.id ∧ b.from_id = newC.id) ∧
         (∃ j oldC newC, (findAnnotsByTask dbC3 1).get? j = some oldC ∧
           rC3.new_annots.get? j = some newC ∧
           rel.to_id = oldC.id ∧ b.to_id = newC.id)) :=
  replicateTask_correct dbC3 1 rC3 (by decide) (by decide) (by decide)

theorem findRich_eq_of (db db2 : DB) (extra : List Assignment) (tid : Nat)
    (hass : db2.assignments = db.assignments ++ extra)
    (hdocs : db2.documents = db.documents)
    (h : ∀ x ∈ extra, (x.task_id == tid) = false) :
    findRichAssignmentsByTask db2 tid = findRichAssignmentsByTask db tid := by
  unfold findRichAssignmentsByTask findAssignmentsByTask
  rw [hass, hdocs, filter_append_nil_right _ _ _ h]

/-- C5: every assignment of the merged task resolves its document reference
into the original task document identity space: the replicated half keeps the
original document ids and the similar half is re-pointed through the
document-name correspondence built from the original task assignments, so no
assignment of the merged task points at a document row that is not referenced
by the original task. -/
theorem mergeTasks_documents (db : DB) (origId simId : Nat) (db2 : DB) (mergedTask : Task)
    (hmerge : mergeTasks db origId simId = some (db2, mergedTask))
    (hT : ∀ t ∈ db.tasks, t.id < db.nextTaskId)
    (hA : ∀ a ∈ db.assignments, a.task_id < db.nextTaskId)
    (hsim : simId < db.nextTaskId)
    (hcov : ∀ p ∈ findRichAssignmentsByTask db simId,
      ∃ q ∈ findRichAssignmentsByTask db origId, p.2 = q.2) :
    ∀ a ∈ db2.assignments, a.task_id = mergedTask.id →
      a.document_id ∈ (findAssignmentsByTask db origId).map (fun x => x.document_id) := by
  unfold mergeTasks at hmerge
  cases hrep : replicateTask db origId with
  | none =>
    rw [hrep] at hmerge
    cases hmerge
  | some r =>
    rw [hrep] at hmerge
    injection hmerge with hmerge
    rw [Prod.mk.injEq] at hmerge
    obtain ⟨h1, h2⟩ := hmerge
    unfold replicateTask at hrep
    cases hfind : db.tasks.find? (fun t => t.id == origId) with
    | none =>
      rw [hfind] at hrep
      cases hrep
    | some task =>
      rw [hfind] at hrep
      injection hrep with hrep
      have hr := hrep.symm
      have horig : origId < db.nextTaskId := by
        have htask := List.mem_of_find?_eq_some hfind
        have hbeq := List.find?_some hfind
        rw [beq_iff_eq] at hbeq
        rw [← hbeq]
        exact hT task htask
      have hrdbass : r.db.assignments = db.assignments ++ replicatedAssignments db origId := by
        rw [hr]
      have hrdocs : r.db.documents = db.documents := by
        rw [hr]
      have hrtid : r.new_task.id = db.nextTaskId := by
        rw [hr]
        rfl
      have hmtid : mergedTask.id = db.nextTaskId := by
        rw [← h2, hrtid]
      have hdb2ass : db2.assignments =
          r.db.assignments ++ mergedAssignments r.db r.new_task.id origId simId := by
        rw [← h1]
      have hfresh : ∀ tid2, tid2 < db.nextTaskId →
          ∀ x ∈ replicatedAssignments db origId, (x.task_id == tid2) = false := by
        intro tid2 hlt x hx
        rw [replicatedAssignments_task db origId x hx]
        simp only [beq_eq_false_iff_ne, ne_eq]
        omega
      have Erichsim : findRichAssignmentsByTask r.db simId = findRichAssignmentsByTask db simId :=
        findRich_eq_of db r.db _ simId hrdbass hrdocs (hfresh simId hsim)
      have Erichorig : findRichAssignmentsByTask r.db origId = findRichAssignmentsByTask db origId :=
        findRich_eq_of db r.db _ origId hrdbass hrdocs (hfresh origId horig)
      intro a ha hatid
      rw [hdb2ass] at ha
      rcases List.mem_append.mp ha with ha1 | ha3
      · rw [hrdbass] at ha1
        rcases List.mem_append.mp ha1 with ha1 | ha2
        · exfalso
          have := hA a ha1
          rw [hatid, hmtid] at this
          omega
        · obtain ⟨i, y, hy, hae⟩ := insertWithIds_mem _ _ _ _ ha2
          rw [hae]
          exact List.mem_map.mpr ⟨y, hy, rfl⟩
      · unfold mergedAssignments at ha3
        obtain ⟨i, p, hp, hae⟩ := insertWithIds_mem _ _ _ _ ha3
        rw [Erichsim] at hp
        obtain ⟨q, hq, hq2⟩ := hcov p hp
        have hkey : ∃ w ∈ findRichAssignmentsByTask db origId, w.2 = p.2 := ⟨q, hq, hq2.symm⟩
        have hcovered := buildName2Id_covers (findRichAssignmentsByTask db origId) [] p.2 hkey
        have hmem2 : ∃ e ∈ buildName2Id (findRichAssignmentsByTask db origId), e.1 = p.2 := by
          unfold buildName2Id
          exact hcovered
        obtain ⟨entry, hfind2, hentrymem, hentrykey, hlook⟩ := lookupName2Id_of_mem hmem2
        have hsub := buildName2Id_sub (findRichAssignmentsByTask db origId) [] entry
          (by unfold buildName2Id at hentrymem; exact hentrymem)
        rcases hsub with habs | ⟨w, hw, hwe⟩
        · cases habs
        · rw [hae]
          show (lookupName2Id (buildName2Id (findRichAssignmentsByTask r.db origId)) p.2).getD 0 ∈ _
          rw [Erichorig, hlook, hwe]
          exact List.mem_map.mpr ⟨w.1, mem_rich_fst hw, rfl⟩

/-- C5 witness: merging the concrete similar task 2 into original task 1 of
dbC5: the transformed copy of the similar-task assignment that referenced
document row 20 (named X) is in the merged task and references document row
10, the X row of the original task. -/
theorem mergeTasks_documents_witness :
    (⟨7, 3, 10, some "u2", 1, 1, AssignmentStatus.pending, 0, "manual"⟩ : Assignment) ∈
      mergeC5.1.assignments ∧
    (⟨7, 3, 10, some "u2", 1, 1, AssignmentStatus.pending, 0, "manual"⟩ : Assignment).task_id =
      mergeC5.2.id ∧
    (⟨7, 3, 10, some "u2", 1, 1, AssignmentStatus.pending, 0, "manual"⟩ : Assignment).document_id ∈
      (findAssignmentsByTask dbC5 1).map (fun x => x.document_id) :=
  ⟨by decide, by decide,
   mergeTasks_documents dbC5 1 2 mergeC5.1 mergeC5.2 (by decide) (by decide) (by decide)
     (by decide) (by decide)
     ⟨7, 3, 10, some "u2", 1, 1, AssignmentStatus.pending, 0, "manual"⟩
     (by decide) (by decide)⟩

end LawSpec
